import Mathlib

/-!
Verification of the xLearn loss subsystem (src/loss/loss.h and its tests).

The file embeds the row-range partitioning helpers `getStart`/`getEnd`, the
elementwise post-processing utilities `Loss::Sign` and `Loss::Sigmoid`, the
scalar `sigmoid`, and — modelled from the specification where the bodies are
not part of the provided sources — the score functions (linear, FM, FFM),
`Loss::Predict`, the squared-loss `Evalute`, and the name-keyed loss factory
registry.  `real_t` values are embedded as rationals where the code is
exact arithmetic on concrete test data, and as real numbers for the
transcendental sigmoid.  A `CHECK_EQ` failure (fatal process termination)
is embedded as an `Option.none` result.
-/

namespace xLearn

/-- Embeds `getStart` from loss.h: `gap = count / total; start_id = id * gap`.
`index_t` is an unsigned integer type, embedded as `Nat`. -/
def getStart (count total id : Nat) : Nat :=
  id * (count / total)

/-- Embeds `getEnd` from loss.h: `gap = count / total; remain = count % total;
end_index = (id+1)*gap`, and the last thread (`id == total-1`) absorbs the
remainder. -/
def getEnd (count total id : Nat) : Nat :=
  let gap := count / total
  let remain := count % total
  let end_index := (id + 1) * gap
  if id = total - 1 then end_index + remain else end_index

/-- `getStart` guarded by the division-by-zero precondition: the C++ body
performs `count / total` unconditionally, which is undefined for
`total = 0`; the guarded embedding makes that branch an explicit `none`. -/
def getStartChecked (count total id : Nat) : Option Nat :=
  if total = 0 then none else some (getStart count total id)

/-- `getEnd` guarded by the division-by-zero precondition, as for
`getStartChecked`. -/
def getEndChecked (count total id : Nat) : Option Nat :=
  if total = 0 then none else some (getEnd count total id)

/-- Embeds `Loss::Sign` from loss.h: `CHECK_EQ(pred.size(), new_pred.size())`
then elementwise `new_pred[i] = pred[i] >= 0 ? 1 : 0`.  The fatal
`CHECK_EQ` is embedded as `none`; the output vector is fully overwritten,
so the result depends only on `pred`. -/
def Sign (pred new_pred : List ℚ) : Option (List ℚ) :=
  if pred.length = new_pred.length then
    some (pred.map fun x => if 0 ≤ x then 1 else 0)
  else none

/-- Embeds the protected scalar `Loss::sigmoid` from loss.h:
`1.0f / (1.0f + exp(-x))`, over the real numbers. -/
noncomputable def sigmoid (x : ℝ) : ℝ :=
  1 / (1 + Real.exp (-x))

/-- Embeds `Loss::Sigmoid` from loss.h: `CHECK_EQ(pred.size(), new_pred.size())`
then elementwise `new_pred[i] = sigmoid(pred[i])`.  The fatal `CHECK_EQ` is
embedded as `none`. -/
noncomputable def Sigmoid (pred new_pred : List ℝ) : Option (List ℝ) :=
  if pred.length = new_pred.length then
    some (pred.map sigmoid)
  else none

/-- One entry of a `SparseRow`: `(feature_index, value, field_index)`;
the field index is used only by the FFM score. -/
structure Node where
  feat : Nat
  val : ℚ
  field_id : Nat
deriving DecidableEq

/-- A sparse sample row: an ordered sequence of nodes. -/
def SparseRow := List Node

/-- Modelled from the spec: the `Model` of model_parameters.h is not under the
provided sources; per §3 it owns a bias slot, the flat linear weights `w`,
and the flat latent weights `v` (sized `num_feature·num_K` for FM and
`num_feature·num_field·num_K` for FFM), exposed through typed accessors. -/
structure Model where
  bias : ℚ
  w : Nat → ℚ
  v : Nat → ℚ

/-- Modelled from the spec: `LinearScore::CalcScore` (linear_score.cc is not
under the provided sources) computes `bias + Σ w[i]·x_i` over the row's
nodes; normalization is disabled (`norm_factor = 1`), as in the spec's
scenarios. -/
def LinearScore.CalcScore (m : Model) (row : List Node) : ℚ :=
  m.bias + (row.map fun a => m.w a.feat * a.val).sum

/-- Sum of `f a b` over all ordered pairs of positions `i < j` of the list. -/
def pairSum (f : Node → Node → ℚ) : List Node → ℚ
  | [] => 0
  | a :: rest => (rest.map (f a)).sum + pairSum f rest

/-- Modelled from the spec: the latent vector of feature `i` in the flat FM
array `v` is the slice `v[i·K .. i·K+K)`; `fmdot K m a b` is the inner
product `<v_i, v_j>` for `i = a.feat`, `j = b.feat`. -/
def fmdot (K : Nat) (m : Model) (a b : Node) : ℚ :=
  ((List.range K).map fun k => m.v (a.feat * K + k) * m.v (b.feat * K + k)).sum

/-- Modelled from the spec: `FMScore::CalcScore` (fm_score.cc is not under the
provided sources) computes `bias + Σ w[i]·x_i + Σ_{i<j} <v_i,v_j>·x_i·x_j`;
normalization is disabled (`norm_factor = 1`), as in the spec's scenarios. -/
def FMScore.CalcScore (K : Nat) (m : Model) (row : List Node) : ℚ :=
  LinearScore.CalcScore m row +
    pairSum (fun a b => fmdot K m a b * a.val * b.val) row

/-- Modelled from the spec: the latent vector of feature `i` for field `f` in
the flat FFM array `v` is the slice `v[(i·F + f)·K .. (i·F + f)·K + K)`;
`ffmdot K F m a b` is the field-aware inner product
`<v_{i,field(j)}, v_{j,field(i)}>`. -/
def ffmdot (K F : Nat) (m : Model) (a b : Node) : ℚ :=
  ((List.range K).map fun k =>
    m.v ((a.feat * F + b.field_id) * K + k) *
    m.v ((b.feat * F + a.field_id) * K + k)).sum

/-- Modelled from the spec: `FFMScore::CalcScore` (ffm_score.cc is not under
the provided sources) computes
`bias + Σ w[i]·x_i + Σ_{i<j} <v_{i,field(j)}, v_{j,field(i)}>·x_i·x_j`;
normalization is disabled (`norm_factor = 1`), as in the spec's scenarios. -/
def FFMScore.CalcScore (K F : Nat) (m : Model) (row : List Node) : ℚ :=
  LinearScore.CalcScore m row +
    pairSum (fun a b => ffmdot K F m a b * a.val * b.val) row

/-- Modelled from the spec: `Loss::Predict` (loss.cc is not under the provided
sources) walks the batch row by row and, per §4.2, sets
`out_predictions[row] = Score.CalcScore(row, model, norm)`.  The model is
threaded through the walk explicitly so that its (non-)mutation is part of
the embedding: the result is the prediction vector together with the model
state after the call. -/
def Predict (score : Model → List Node → ℚ) (batch : List (List Node))
    (m : Model) : List ℚ × Model :=
  batch.foldl (fun st row => (st.1 ++ [score st.2 row], st.2)) ([], m)

/-- Modelled from the spec: `SquaredLoss::Evalute` (squared_loss.h is not
under the provided sources) returns the mean per-sample squared error,
after the fatal equal-length check (`none` on mismatch). -/
def SquaredLoss.Evalute (pred label : List ℚ) : Option ℚ :=
  if pred.length = label.length then
    some ((List.zipWith (fun p y => (p - y) ^ 2) pred label).sum / pred.length)
  else none

/-- The loss variants registered in the factory registry. -/
inductive LossKind where
  | squared
  | hinge
  | crossEntropy
deriving DecidableEq

/-- Modelled from the spec: the name-keyed factory registry
`xLearn_loss_registry` (class_register.h is not under the provided
sources), holding one creator per registered loss name. -/
def xLearn_loss_registry : List (String × LossKind) :=
  [("squared", LossKind.squared),
   ("hinge", LossKind.hinge),
   ("cross-entropy", LossKind.crossEntropy)]

/-- Modelled from the spec: `CREATE_LOSS(format_name)` looks the name up in
the registry and yields a null result (`none`) on an unregistered or empty
name rather than throwing. -/
def CREATE_LOSS (format_name : String) : Option LossKind :=
  (xLearn_loss_registry.find? fun p => p.1 = format_name).map Prod.snd

/-- The row built by the loss tests: 3 unit-valued features with indices
0,1,2 and (for FFM) distinct field indices 0,1,2 (`AddNode(i, j, 1.0, j)`). -/
def testRow : List Node :=
  [⟨0, 1, 0⟩, ⟨1, 1, 1⟩, ⟨2, 1, 2⟩]

/-- The data matrix built by the loss tests: `kLine = 10` identical rows. -/
def testMatrix : List (List Node) :=
  List.replicate 10 testRow

/-- The linear test model: every linear weight 2.0, bias 0 (Scenario A). -/
def model_lr : Model :=
  ⟨0, fun _ => 2, fun _ => 0⟩

/-- The FM/FFM test model: every linear weight 2.0, every latent weight 1.0,
bias 0 (Scenarios B and C). -/
def model_fm : Model :=
  ⟨0, fun _ => 2, fun _ => 1⟩

/-- The `Predict` fold leaves the model untouched and maps the score over the
batch (accumulator-generalised form). -/
lemma Predict_foldl (score : Model → List Node → ℚ) (m : Model) :
    ∀ (batch : List (List Node)) (acc : List ℚ),
      batch.foldl (fun st row => (st.1 ++ [score st.2 row], st.2)) (acc, m) =
        (acc ++ batch.map (score m), m) := by
  intro batch
  induction batch with
  | nil => intro acc; simp
  | cons r rs ih =>
    intro acc
    simp only [List.foldl_cons, ih, List.map_cons]
    simp

/-- `Predict` in closed form: the predictions are the score mapped over the
batch rows against the incoming model, and the model comes back unchanged. -/
lemma Predict_eq (score : Model → List Node → ℚ) (batch : List (List Node))
    (m : Model) : Predict score batch m = (batch.map (score m), m) := by
  unfold Predict
  simpa using Predict_foldl score m batch []

/-- C9: `Loss::Predict` never mutates the model — for every score function,
batch and model, the model (in particular its parameter arrays `w` and `v`)
is unchanged after the call, and the prediction written for each row is the
score of that row against the (unchanged) model. -/
theorem Predict_does_not_mutate_model
    (score : Model → List Node → ℚ) (batch : List (List Node)) (m : Model) :
    (Predict score batch m).2 = m ∧
    (Predict score batch m).2.w = m.w ∧
    (Predict score batch m).2.v = m.v ∧
    (Predict score batch m).1 = batch.map (score m) := by
  rw [Predict_eq]
  exact ⟨rfl, rfl, rfl, rfl⟩

/-- C4: a linear model with every weight 2.0 and bias 0, applied through
`Predict`/`CalcScore` to rows of 3 unit-valued features, predicts 6.0 for
every row. -/
theorem predict_linear_scenario :
    (Predict LinearScore.CalcScore testMatrix model_lr).1 =
      List.replicate 10 6 ∧
    LinearScore.CalcScore model_lr testRow = 6 := by
  rw [Predict_eq]
  constructor
  · norm_num [LinearScore.CalcScore, model_lr, testMatrix, testRow, List.replicate]
  · norm_num [LinearScore.CalcScore, model_lr, testRow]

/-- C2: an FM model with all linear weights 2.0, all latent weights 1.0,
`num_K = 24` and bias 0, applied through `Predict`/`CalcScore` to rows of 3
unit-valued features, predicts 78.0 (linear term 6 plus pairwise term
24·1·3) for every row. -/
theorem predict_fm_scenario :
    (Predict (FMScore.CalcScore 24) testMatrix model_fm).1 =
      List.replicate 10 78 ∧
    FMScore.CalcScore 24 model_fm testRow = 78 := by
  rw [Predict_eq]
  constructor
  · norm_num [FMScore.CalcScore, LinearScore.CalcScore, pairSum, fmdot,
      model_fm, testMatrix, testRow, List.replicate, List.range_succ]
  · norm_num [FMScore.CalcScore, LinearScore.CalcScore, pairSum, fmdot,
      model_fm, testRow, List.range_succ]

/-- C3: an FFM model with the same parameters as the FM scenario (all `w`
2.0, all `v` 1.0, `num_K = 24`, bias 0), applied to rows of 3 unit-valued
features with distinct field indices, also predicts 78.0; with all latent
vectors equal the field-aware pairwise sum coincides with the FM one. -/
theorem predict_ffm_scenario :
    (Predict (FFMScore.CalcScore 24 3) testMatrix model_fm).1 =
      List.replicate 10 78 ∧
    FFMScore.CalcScore 24 3 model_fm testRow =
      FMScore.CalcScore 24 model_fm testRow ∧
    FFMScore.CalcScore 24 3 model_fm testRow = 78 := by
  rw [Predict_eq]
  refine ⟨?_, ?_, ?_⟩
  · norm_num [FFMScore.CalcScore, LinearScore.CalcScore, pairSum, ffmdot,
      model_fm, testMatrix, testRow, List.replicate, List.range_succ]
  · norm_num [FFMScore.CalcScore, FMScore.CalcScore, LinearScore.CalcScore,
      pairSum, ffmdot, fmdot, model_fm, testRow, List.range_succ]
  · norm_num [FFMScore.CalcScore, LinearScore.CalcScore, pairSum, ffmdot,
      model_fm, testRow, List.range_succ]

/-- C5: for equal-length vectors, `Loss::Sign` succeeds and writes 1 at every
index where the input is ≥ 0 and 0 where it is < 0, and no other value ever
appears in the output. -/
theorem Sign_spec (pred new_pred : List ℚ)
    (h : pred.length = new_pred.length) :
    ∃ out, Sign pred new_pred = some out ∧ out.length = pred.length ∧
      (∀ i (h1 : i < pred.length) (h2 : i < out.length),
        out.get ⟨i, h2⟩ = if 0 ≤ pred.get ⟨i, h1⟩ then 1 else 0) ∧
      ∀ y ∈ out, y = 0 ∨ y = 1 := by
  refine ⟨pred.map fun x => if 0 ≤ x then 1 else 0, ?_, by simp, ?_, ?_⟩
  · simp [Sign, h]
  · intro i h1 h2
    simp [List.get_eq_getElem, List.getElem_map]
  · intro y hy
    simp only [List.mem_map] at hy
    obtain ⟨x, _, rfl⟩ := hy
    by_cases hx : 0 ≤ x <;> simp [hx]

/-- Witness for C5 at the concrete input `pred = [5, -3]`, `new_pred = [0, 0]`. -/
theorem Sign_spec_witness :
    ([5, -3] : List ℚ).length = ([0, 0] : List ℚ).length ∧
    ∃ out, Sign [5, -3] [0, 0] = some out ∧
      out.length = ([5, -3] : List ℚ).length ∧
      (∀ i (h1 : i < ([5, -3] : List ℚ).length) (h2 : i < out.length),
        out.get ⟨i, h2⟩ =
          if 0 ≤ ([5, -3] : List ℚ).get ⟨i, h1⟩ then 1 else 0) ∧
      ∀ y ∈ out, y = 0 ∨ y = 1 :=
  ⟨rfl, Sign_spec [5, -3] [0, 0] rfl⟩

/-- C6: the scalar sigmoid `x ↦ 1/(1+exp(−x))` is strictly increasing and
maps 0 to 1/2, and `Loss::Sigmoid` applies it elementwise on equal-length
vectors. -/
theorem sigmoid_props :
    (∀ x y : ℝ, x < y → sigmoid x < sigmoid y) ∧
    sigmoid 0 = 1 / 2 ∧
    (∀ pred new_pred : List ℝ, pred.length = new_pred.length →
      ∃ out, Sigmoid pred new_pred = some out ∧ out.length = pred.length ∧
        ∀ i (h1 : i < pred.length) (h2 : i < out.length),
          out.get ⟨i, h2⟩ = sigmoid (pred.get ⟨i, h1⟩)) := by
  refine ⟨?_, ?_, ?_⟩
  · intro x y hxy
    unfold sigmoid
    have h1 : (0 : ℝ) < 1 + Real.exp (-y) := by positivity
    have h2 : Real.exp (-y) < Real.exp (-x) := Real.exp_lt_exp.mpr (by linarith)
    exact one_div_lt_one_div_of_lt h1 (by linarith)
  · unfold sigmoid
    rw [neg_zero, Real.exp_zero]
    norm_num
  · intro pred new_pred h
    refine ⟨pred.map sigmoid, by simp [Sigmoid, h], by simp, ?_⟩
    intro i h1 h2
    simp [List.get_eq_getElem, List.getElem_map]

/-- Witness for C6 at the concrete inputs `x = 0 < y = 1` and
`pred = [0]`, `new_pred = [0]`. -/
theorem sigmoid_props_witness :
    ((0 : ℝ) < 1) ∧ sigmoid 0 < sigmoid 1 ∧
    (([0] : List ℝ).length = ([0] : List ℝ).length) ∧
    ∃ out, Sigmoid [0] [0] = some out ∧ out.length = ([0] : List ℝ).length ∧
      ∀ i (h1 : i < ([0] : List ℝ).length) (h2 : i < out.length),
        out.get ⟨i, h2⟩ = sigmoid (([0] : List ℝ).get ⟨i, h1⟩) :=
  ⟨by norm_num, sigmoid_props.1 0 1 (by norm_num), rfl,
    sigmoid_props.2.2 [0] [0] rfl⟩

/-- C7: constructing a loss through the name-keyed factory registry succeeds
(non-null) for every registered name and yields a null result for the empty
name, for `"unknow_name"`, and for any name not present in the registry. -/
theorem CREATE_LOSS_spec :
    (CREATE_LOSS "squared").isSome = true ∧
    (CREATE_LOSS "hinge").isSome = true ∧
    (CREATE_LOSS "cross-entropy").isSome = true ∧
    CREATE_LOSS "" = none ∧
    CREATE_LOSS "unknow_name" = none ∧
    ∀ name, (∀ p ∈ xLearn_loss_registry, p.1 ≠ name) →
      CREATE_LOSS name = none := by
  refine ⟨by decide, by decide, by decide, by decide, by decide, ?_⟩
  intro name h
  have h1 : ¬("squared" = name) :=
    h ("squared", LossKind.squared) (by simp [xLearn_loss_registry])
  have h2 : ¬("hinge" = name) :=
    h ("hinge", LossKind.hinge) (by simp [xLearn_loss_registry])
  have h3 : ¬("cross-entropy" = name) :=
    h ("cross-entropy", LossKind.crossEntropy) (by simp [xLearn_loss_registry])
  simp [CREATE_LOSS, xLearn_loss_registry, List.find?, h1, h2, h3]

/-- Witness for C7 at the concrete unregistered name `"unknow_name"`. -/
theorem CREATE_LOSS_spec_witness :
    (∀ p ∈ xLearn_loss_registry, p.1 ≠ "unknow_name") ∧
    CREATE_LOSS "unknow_name" = none :=
  ⟨by decide, CREATE_LOSS_spec.2.2.2.2.2 "unknow_name" (by decide)⟩

/-- C8: `Evalute`, `Sigmoid` and `Sign` hit the fatal size check (embedded as
`none`) exactly when the two vectors have different lengths; with equal
lengths the check passes and a result is produced. -/
theorem length_check_fatal :
    (∀ p q : List ℚ, p.length ≠ q.length → Sign p q = none) ∧
    (∀ p q : List ℝ, p.length ≠ q.length → Sigmoid p q = none) ∧
    (∀ p q : List ℚ, p.length ≠ q.length → SquaredLoss.Evalute p q = none) ∧
    (∀ p q : List ℚ, p.length = q.length → (Sign p q).isSome = true) ∧
    (∀ p q : List ℝ, p.length = q.length → (Sigmoid p q).isSome = true) ∧
    (∀ p q : List ℚ, p.length = q.length →
      (SquaredLoss.Evalute p q).isSome = true) := by
  refine ⟨?_, ?_, ?_, ?_, ?_, ?_⟩ <;> intro p q h <;>
    simp [Sign, Sigmoid, SquaredLoss.Evalute, h]

/-- Witness for C8 at the concrete mismatched pair `[1]`/`[]` and the
concrete matched pair `[1]`/`[2]`. -/
theorem length_check_fatal_witness :
    (([1] : List ℚ).length ≠ ([] : List ℚ).length) ∧ Sign [1] [] = none ∧
    (([1] : List ℝ).length ≠ ([] : List ℝ).length) ∧ Sigmoid [1] [] = none ∧
    SquaredLoss.Evalute [1] [] = none ∧
    (([1] : List ℚ).length = ([2] : List ℚ).length) ∧
    (Sign [1] [2]).isSome = true ∧
    (([1] : List ℝ).length = ([2] : List ℝ).length) ∧
    (Sigmoid [(1 : ℝ)] [2]).isSome = true ∧
    (SquaredLoss.Evalute [1] [2]).isSome = true :=
  ⟨by decide, length_check_fatal.1 [1] [] (by decide),
   by simp, length_check_fatal.2.1 [1] [] (by simp),
   length_check_fatal.2.2.1 [1] [] (by decide),
   by decide, length_check_fatal.2.2.2.1 [1] [2] (by decide),
   by simp, length_check_fatal.2.2.2.2.1 [1] [2] (by simp),
   length_check_fatal.2.2.2.2.2 [1] [2] (by decide)⟩

/-- C10: the unguarded `count / total` and `count % total` in
`getStart`/`getEnd` are well-defined exactly under the precondition
`total ≥ 1`: under it the guarded embedding agrees with the unguarded one
(the division-by-zero branch is unreachable), while `total = 0` reaches the
division-by-zero branch. -/
theorem getStart_getEnd_div_guard :
    (∀ count total id : Nat, 1 ≤ total →
      getStartChecked count total id = some (getStart count total id) ∧
      getEndChecked count total id = some (getEnd count total id)) ∧
    (∀ count id : Nat,
      getStartChecked count 0 id = none ∧ getEndChecked count 0 id = none) := by
  constructor
  · intro count total id h
    have hne : total ≠ 0 := by omega
    simp [getStartChecked, getEndChecked, hne]
  · intro count id
    simp [getStartChecked, getEndChecked]

/-- Witness for C10 at `count = 10` with the in-precondition thread count 3
and the division-by-zero thread count 0. -/
theorem getStart_getEnd_div_guard_witness :
    (1 ≤ 3) ∧
    getStartChecked 10 3 1 = some (getStart 10 3 1) ∧
    getEndChecked 10 3 1 = some (getEnd 10 3 1) ∧
    getStartChecked 10 0 1 = none ∧ getEndChecked 10 0 1 = none :=
  ⟨by decide, (getStart_getEnd_div_guard.1 10 3 1 (by decide)).1,
   (getStart_getEnd_div_guard.1 10 3 1 (by decide)).2,
   (getStart_getEnd_div_guard.2 10 1).1,
   (getStart_getEnd_div_guard.2 10 1).2⟩

/-- `getEnd` in closed form: `(t+1)·⌊N/T⌋`, plus the remainder on the last
thread. -/
lemma getEnd_eq (N T t : Nat) :
    getEnd N T t = (t + 1) * (N / T) + (if t = T - 1 then N % T else 0) := by
  by_cases h : t = T - 1 <;> simp [getEnd, h]

/-- `getStart` in closed form: `t·⌊N/T⌋`. -/
lemma getStart_eq (N T t : Nat) : getStart N T t = t * (N / T) := rfl

/-- The last thread's range ends exactly at `N`. -/
lemma getEnd_last (N T : Nat) (hT : 1 ≤ T) : getEnd N T (T - 1) = N := by
  rw [getEnd_eq, if_pos rfl]
  have h1 : T - 1 + 1 = T := by omega
  rw [h1]
  exact Nat.div_add_mod N T

/-- Any `a` is below `(a / b + 1) * b` when `b > 0`. -/
lemma lt_div_succ_mul (a b : Nat) (hb : 0 < b) : a < (a / b + 1) * b := by
  have h1 : b * (a / b) + a % b = a := Nat.div_add_mod a b
  have h2 : a % b < b := Nat.mod_lt a hb
  rw [add_one_mul, Nat.mul_comm b (a / b)] at *
  set A := a / b * b with hA
  set M := a % b with hM
  omega

/-- The sizes of the `T` ranges sum to `N`. -/
lemma partition_sum (N T : Nat) (hT : 1 ≤ T) :
    (Finset.range T).sum (fun t => getEnd N T t - getStart N T t) = N := by
  obtain ⟨S, rfl⟩ : ∃ S, T = S + 1 := ⟨T - 1, by omega⟩
  rw [Finset.sum_range_succ]
  have hmid : ∀ t ∈ Finset.range S,
      getEnd N (S + 1) t - getStart N (S + 1) t = N / (S + 1) := by
    intro t ht
    rw [Finset.mem_range] at ht
    have h : t ≠ (S + 1) - 1 := by omega
    rw [getEnd_eq, if_neg h, Nat.add_zero, getStart_eq, add_one_mul]
    exact Nat.add_sub_cancel_left _ _
  rw [Finset.sum_congr rfl hmid, Finset.sum_const, Finset.card_range,
    smul_eq_mul]
  have hlast : getEnd N (S + 1) S = N := by
    have h := getEnd_last N (S + 1) (by omega)
    simpa using h
  rw [hlast, getStart_eq]
  apply Nat.add_sub_cancel'
  calc S * (N / (S + 1)) ≤ (S + 1) * (N / (S + 1)) :=
        Nat.mul_le_mul_right _ (Nat.le_succ S)
    _ ≤ N := by
        rw [Nat.mul_comm]
        exact Nat.div_mul_le_self N (S + 1)

/-- C1: for `T ≥ 1` threads over `N` rows, the ranges
`[getStart(N,T,t), getEnd(N,T,t))` start at 0, end at `N`, are well-formed,
contiguous and pairwise disjoint, their sizes sum to `N`, every non-last
thread owns exactly `[t·⌊N/T⌋, (t+1)·⌊N/T⌋)`, the last thread's range has
the extra `N mod T` rows, and every row index below `N` is covered by some
thread's range. -/
theorem getStart_getEnd_partition (N T : Nat) (hT : 1 ≤ T) :
    getStart N T 0 = 0 ∧
    getEnd N T (T - 1) = N ∧
    (∀ t, t < T → getStart N T t ≤ getEnd N T t) ∧
    (∀ t, t + 1 < T → getEnd N T t = getStart N T (t + 1)) ∧
    (∀ t1 t2, t1 < t2 → t2 < T → getEnd N T t1 ≤ getStart N T t2) ∧
    (Finset.range T).sum (fun t => getEnd N T t - getStart N T t) = N ∧
    (∀ t, t + 1 < T →
      getStart N T t = t * (N / T) ∧ getEnd N T t = (t + 1) * (N / T)) ∧
    getEnd N T (T - 1) = getStart N T (T - 1) + (N / T + N % T) ∧
    (∀ x, x < N → ∃ t, t < T ∧ getStart N T t ≤ x ∧ x < getEnd N T t) := by
  refine ⟨?_, getEnd_last N T hT, ?_, ?_, ?_, partition_sum N T hT, ?_, ?_, ?_⟩
  · simp [getStart]
  · intro t ht
    rw [getStart_eq, getEnd_eq]
    exact le_trans (Nat.mul_le_mul_right _ (Nat.le_succ t))
      (Nat.le_add_right _ _)
  · intro t ht
    have h : t ≠ T - 1 := by omega
    rw [getEnd_eq, if_neg h, Nat.add_zero, getStart_eq]
  · intro t1 t2 h12 h2
    have h : t1 ≠ T - 1 := by omega
    rw [getEnd_eq, if_neg h, Nat.add_zero, getStart_eq]
    exact Nat.mul_le_mul_right _ (by omega)
  · intro t ht
    have h : t ≠ T - 1 := by omega
    exact ⟨getStart_eq N T t, by rw [getEnd_eq, if_neg h, Nat.add_zero]⟩
  · rw [getEnd_eq, if_pos rfl, getStart_eq, add_one_mul, Nat.add_assoc]
  · intro x hx
    by_cases hg : N / T = 0
    · refine ⟨T - 1, by omega, ?_, ?_⟩
      · rw [getStart_eq, hg, Nat.mul_zero]
        exact Nat.zero_le x
      · rw [getEnd_last N T hT]
        exact hx
    · have hgpos : 0 < N / T := Nat.pos_of_ne_zero hg
      by_cases hlt : x / (N / T) < T - 1
      · refine ⟨x / (N / T), by omega, ?_, ?_⟩
        · rw [getStart_eq]
          exact Nat.div_mul_le_self x (N / T)
        · rw [getEnd_eq, if_neg (by omega), Nat.add_zero]
          exact lt_div_succ_mul x (N / T) hgpos
      · refine ⟨T - 1, by omega, ?_, ?_⟩
        · rw [getStart_eq]
          calc (T - 1) * (N / T) ≤ x / (N / T) * (N / T) :=
                Nat.mul_le_mul_right _ (by omega)
            _ ≤ x := Nat.div_mul_le_self x (N / T)
        · rw [getEnd_last N T hT]
          exact hx

/-- Witness for C1 at the concrete partition of `N = 7` rows over `T = 3`
threads (ranges `[0,2)`, `[2,4)`, `[4,7)`). -/
theorem getStart_getEnd_partition_witness :
    (1 ≤ 3) ∧
    (getStart 7 3 0 = 0 ∧
     getEnd 7 3 (3 - 1) = 7 ∧
     (∀ t, t < 3 → getStart 7 3 t ≤ getEnd 7 3 t) ∧
     (∀ t, t + 1 < 3 → getEnd 7 3 t = getStart 7 3 (t + 1)) ∧
     (∀ t1 t2, t1 < t2 → t2 < 3 → getEnd 7 3 t1 ≤ getStart 7 3 t2) ∧
     (Finset.range 3).sum (fun t => getEnd 7 3 t - getStart 7 3 t) = 7 ∧
     (∀ t, t + 1 < 3 →
       getStart 7 3 t = t * (7 / 3) ∧ getEnd 7 3 t = (t + 1) * (7 / 3)) ∧
     getEnd 7 3 (3 - 1) = getStart 7 3 (3 - 1) + (7 / 3 + 7 % 3) ∧
     (∀ x, x < 7 → ∃ t, t < 3 ∧ getStart 7 3 t ≤ x ∧ x < getEnd 7 3 t)) :=
  ⟨by decide, getStart_getEnd_partition 7 3 (by decide)⟩

end xLearn
